import Mathlib

/-!
Shallow embedding of the `etchr` device-imaging core (the Rust crate
`etchr-core`) and proofs about its read pipeline, write pipeline,
decompression stage, verification stage and device enumerator.

Conventions used throughout:
* bytes are `Nat` (the pipelines move bytes, they never compute with them);
* the raw device contents are a function `Nat → Byte` (byte at offset);
* the shared cancellation flag (`Arc<AtomicBool>` in the source) is a
  schedule `running : Nat → Bool` giving the value observed at the k-th
  poll of a loop — the loops poll it exactly once per chunk;
* the I/O syscalls themselves (`read_exact`, `write_all`, `flush`) are
  modelled as succeeding; error paths of interest (cancellation, the
  zero-size guard, verification mismatch) are modelled explicitly;
* progress callbacks are modelled by recording the argument of every
  invocation in a trace list.
-/

set_option linter.unusedVariables false

namespace Etchr

/-- Bytes are modelled as natural numbers. -/
abbrev Byte := Nat

/-- The 1 MiB chunk size used by the read, write and verify loops
(`BUFFER_SIZE` in `read.rs` and `write.rs`). -/
def BUFFER_SIZE : Nat := 1024 * 1024

/-- The device block size assumed by the direct-I/O code paths
(`block_size = 512` in `read.rs` and `write.rs`). -/
def BLOCK_SIZE : Nat := 512

/-! ## Read pipeline (`etchr-core/src/read.rs`) -/

/-- Error kinds of the read pipeline (spec section 7). -/
inductive ReadError
  | deviceOpenFailed
  | zeroSize
  | ioFailure
  | cancelled
  deriving DecidableEq, Repr

/-- Trace of the copy loop of `read::run` (read.rs lines 80-94):
bytes appended to the image file, the cumulative totals passed to
`on_progress`, and the error that ended the loop, if any. -/
structure ReadLoopOut where
  written : List Byte
  progress : List Nat
  err : Option ReadError
  deriving DecidableEq, Repr

/-- The copy loop of `read::run`: while `read_total < size_bytes`, poll the
cancellation flag, read `min BUFFER_SIZE (size_bytes - read_total)` bytes
from the device and append them to the image file, then report the new
cumulative total. -/
def readLoop (device : Nat → Byte) (running : Nat → Bool) (sizeBytes : Nat)
    (readTotal k : Nat) : ReadLoopOut :=
  if h : readTotal < sizeBytes then
    if running k = false then
      { written := [], progress := [], err := some .cancelled }
    else
      let toRead := min BUFFER_SIZE (sizeBytes - readTotal)
      let chunk := (List.range toRead).map (fun i => device (readTotal + i))
      let rest := readLoop device running sizeBytes (readTotal + toRead) (k + 1)
      { written := chunk ++ rest.written
        progress := (readTotal + toRead) :: rest.progress
        err := rest.err }
  else { written := [], progress := [], err := none }
termination_by sizeBytes - readTotal
decreasing_by
  simp only [BUFFER_SIZE]
  omega

/-- Observable outcome of `read::run`: final result, whether the output
image file exists afterwards and its contents, whether it was flushed, and
the `on_read_start` / `on_progress` call traces. -/
structure ReadRunOut where
  result : Except ReadError Unit
  fileExists : Bool
  fileBytes : List Byte
  flushed : Bool
  startCalls : List Nat
  progressCalls : List Nat
  deriving Repr

/-- `read::run` (read.rs lines 42-98): open the device, query its size,
fail with `ZeroSize` if the size is zero (before the output file is
created), call `on_read_start`, create the output file, run the copy loop,
flush on success.  The only loop error in the model is cancellation, whose
handler deletes the partial output file (read.rs line 83) before
returning, hence `fileExists := false` on that path. -/
def readRun (device : Nat → Byte) (sizeBytes : Nat) (running : Nat → Bool) :
    ReadRunOut :=
  if sizeBytes = 0 then
    { result := .error .zeroSize, fileExists := false, fileBytes := []
      flushed := false, startCalls := [], progressCalls := [] }
  else
    let out := readLoop device running sizeBytes 0 0
    match out.err with
    | some e =>
      { result := .error e, fileExists := false, fileBytes := []
        flushed := false, startCalls := [sizeBytes], progressCalls := out.progress }
    | none =>
      { result := .ok (), fileExists := true, fileBytes := out.written
        flushed := true, startCalls := [sizeBytes], progressCalls := out.progress }

/-- Helper for C2: if the flag is observed true at the first `n` polls and
false at poll `n`, and the loop still has data to copy when poll `n`
happens, then the loop ends with the cancellation error. -/
theorem readLoop_cancelled (device : Nat → Byte) (running : Nat → Bool) :
    ∀ (n sizeBytes readTotal k : Nat),
      (∀ j, j < n → running (k + j) = true) →
      running (k + n) = false →
      readTotal + n * BUFFER_SIZE < sizeBytes →
      (readLoop device running sizeBytes readTotal k).err = some .cancelled := by
  intro n
  induction n with
  | zero =>
    intro sizeBytes readTotal k _ hfalse hreach
    rw [readLoop]
    rw [dif_pos (by omega : readTotal < sizeBytes)]
    simp only [Nat.add_zero] at hfalse
    rw [if_pos hfalse]
  | succ n ih =>
    intro sizeBytes readTotal k hbefore hfalse hreach
    rw [readLoop]
    have hB : 0 < BUFFER_SIZE := by simp [BUFFER_SIZE]
    rw [dif_pos (by nlinarith : readTotal < sizeBytes)]
    have h0 : running k = true := by
      have := hbefore 0 (Nat.succ_pos n)
      simpa using this
    rw [if_neg (by simp [h0])]
    simp only
    have hmin : min BUFFER_SIZE (sizeBytes - readTotal) = BUFFER_SIZE := by
      have : readTotal + BUFFER_SIZE ≤ sizeBytes := by nlinarith
      omega
    rw [hmin]
    exact ih sizeBytes (readTotal + BUFFER_SIZE) (k + 1)
      (fun j hj => by
        have := hbefore (j + 1) (by omega)
        simpa [Nat.add_assoc, Nat.add_comm 1 j] using this)
      (by simpa [Nat.add_assoc, Nat.add_comm 1 n] using hfalse)
      (by nlinarith [Nat.succ_mul n BUFFER_SIZE])

/-- C2: in the read pipeline, if the cancellation flag is observed false at
a chunk boundary mid-copy, the partially written output image file is
deleted and the call returns the cancellation error kind, so the partial
output file no longer exists afterwards. -/
theorem read_cancel_deletes_partial_file
    (device : Nat → Byte) (sizeBytes : Nat) (running : Nat → Bool) (k : Nat)
    (hbefore : ∀ j, j < k → running j = true)
    (hk : running k = false)
    (hreach : k * BUFFER_SIZE < sizeBytes) :
    (readRun device sizeBytes running).result = .error .cancelled ∧
      (readRun device sizeBytes running).fileExists = false := by
  have hsz : sizeBytes ≠ 0 := by
    have := Nat.zero_le (k * BUFFER_SIZE)
    omega
  have herr : (readLoop device running sizeBytes 0 0).err = some .cancelled :=
    readLoop_cancelled device running k sizeBytes 0 0
      (fun j hj => by simpa using hbefore j hj)
      (by simpa using hk)
      (by omega)
  unfold readRun
  rw [if_neg hsz]
  simp [herr]

/-- Witness for C2: an image of three full chunks plus a tail, with the
flag flipping to false at the second poll (after chunk 1 is copied). -/
theorem read_cancel_deletes_partial_file_witness :
    ((∀ j, j < 1 → (fun j : Nat => j == 0) j = true) ∧
        ((fun j : Nat => j == 0) 1 = false) ∧
        1 * BUFFER_SIZE < 3 * BUFFER_SIZE + 700) ∧
      ((readRun (fun _ => 0) (3 * BUFFER_SIZE + 700) (fun j => j == 0)).result =
          .error .cancelled ∧
        (readRun (fun _ => 0) (3 * BUFFER_SIZE + 700) (fun j => j == 0)).fileExists =
          false) :=
  ⟨⟨by decide, by decide, by decide⟩,
    read_cancel_deletes_partial_file (fun _ => 0) (3 * BUFFER_SIZE + 700)
      (fun j => j == 0) 1 (by decide) (by decide) (by decide)⟩

/-- C3: a device whose kernel size query reports zero bytes makes the read
pipeline fail with the zero-size error kind before the output image file is
created, so no output file exists (and no start/progress callback runs). -/
theorem read_zero_size_guard (device : Nat → Byte) (running : Nat → Bool) :
    readRun device 0 running =
      { result := .error .zeroSize, fileExists := false, fileBytes := []
        flushed := false, startCalls := [], progressCalls := [] } := rfl

/-! ## Write pipeline, device-write stage (`etchr-core/src/write.rs` lines 152-192) -/

/-- Error kinds of the write pipeline (spec section 7). -/
inductive WriteError
  | decompressFailed
  | deviceOpenFailed
  | ioFailure
  | cancelled
  | verificationMismatch
  deriving DecidableEq, Repr

/-- The padded length computed for a final partial chunk:
`(to_read + block_size - 1) / block_size * block_size` (write.rs line 180). -/
def roundUpBlock (n : Nat) : Nat := (n + BLOCK_SIZE - 1) / BLOCK_SIZE * BLOCK_SIZE

/-- Trace of the device-write loop of `write::run` (write.rs lines 168-190):
the buffer contents of each `write_all` call, the cumulative genuine byte
counts passed to `on_write_progress`, and the error ending the loop. -/
structure WriteLoopOut where
  deviceWrites : List (List Byte)
  progress : List Nat
  err : Option WriteError
  deriving DecidableEq, Repr

/-- The device-write loop of `write::run`: while bytes remain, poll the
cancellation flag, read `min BUFFER_SIZE remaining` bytes from the image,
zero-pad the chunk up to the next multiple of `BLOCK_SIZE` when its length
is not already a multiple (write.rs lines 179-185), write the padded buffer
to the device, and report the cumulative count of genuine bytes only. -/
def writeLoop (rest : List Byte) (running : Nat → Bool) (k written : Nat) :
    WriteLoopOut :=
  if h : rest.length = 0 then { deviceWrites := [], progress := [], err := none }
  else if running k = false then
    { deviceWrites := [], progress := [], err := some .cancelled }
  else
    let toRead := min BUFFER_SIZE rest.length
    let chunk := rest.take toRead
    let padded :=
      if toRead % BLOCK_SIZE ≠ 0 then
        chunk ++ List.replicate (roundUpBlock toRead - toRead) 0
      else chunk
    let out := writeLoop (rest.drop toRead) running (k + 1) (written + toRead)
    { deviceWrites := padded :: out.deviceWrites
      progress := (written + toRead) :: out.progress
      err := out.err }
termination_by rest.length
decreasing_by
  rw [List.length_drop]
  simp only [BUFFER_SIZE]
  omega

/-- Observable outcome of the device-write stage of `write::run`: result,
the `on_write_start` trace, every buffer written to the device, the
`on_write_progress` trace, and whether the device was flushed. -/
structure WriteStageOut where
  result : Except WriteError Unit
  startCalls : List Nat
  deviceWrites : List (List Byte)
  progress : List Nat
  flushed : Bool
  deriving Repr

/-- The device-write stage of `write::run` (write.rs lines 152-192): record
the image length `L`, call `on_write_start L`, run the copy loop, flush the
device on success. -/
def writeStage (image : List Byte) (running : Nat → Bool) : WriteStageOut :=
  let out := writeLoop image running 0 0
  match out.err with
  | some e =>
    { result := .error e, startCalls := [image.length]
      deviceWrites := out.deviceWrites, progress := out.progress, flushed := false }
  | none =>
    { result := .ok (), startCalls := [image.length]
      deviceWrites := out.deviceWrites, progress := out.progress, flushed := true }

/-- Helper for C1: with the cancellation flag never raised, the write loop
terminates without error, all progress values are bounded by the genuine
byte count, the last progress value is the genuine byte count, and for an
image whose length is not block-aligned the last device write is the final
partial chunk plus `BLOCK_SIZE - len % BLOCK_SIZE` zero bytes. -/
theorem writeLoop_ok (running : Nat → Bool) (hrun : ∀ j, running j = true) :
    ∀ (n : Nat) (rest : List Byte) (k written : Nat), rest.length ≤ n →
      (writeLoop rest running k written).err = none ∧
      (∀ p ∈ (writeLoop rest running k written).progress,
        p ≤ written + rest.length) ∧
      (rest ≠ [] →
        (writeLoop rest running k written).progress.getLast? =
          some (written + rest.length)) ∧
      (rest ≠ [] → rest.length % BLOCK_SIZE ≠ 0 →
        (writeLoop rest running k written).deviceWrites.getLast? =
          some (rest.drop (rest.length - rest.length % BUFFER_SIZE) ++
            List.replicate (BLOCK_SIZE - rest.length % BLOCK_SIZE) 0)) := by
  intro n
  induction n with
  | zero =>
    intro rest k written hn
    have hlen : rest.length = 0 := by omega
    rw [writeLoop, dif_pos hlen]
    refine ⟨rfl, by simp, ?_, ?_⟩
    · intro hne
      exact absurd (List.length_eq_zero.mp hlen) hne
    · intro hne _
      exact absurd (List.length_eq_zero.mp hlen) hne
  | succ n ih =>
    intro rest k written hn
    by_cases hlen : rest.length = 0
    · rw [writeLoop, dif_pos hlen]
      refine ⟨rfl, by simp, ?_, ?_⟩
      · intro hne
        exact absurd (List.length_eq_zero.mp hlen) hne
      · intro hne _
        exact absurd (List.length_eq_zero.mp hlen) hne
    · rw [writeLoop, dif_neg hlen, if_neg (by simp [hrun k])]
      simp only
      have hB : 0 < BUFFER_SIZE := by simp [BUFFER_SIZE]
      have hB512 : BUFFER_SIZE % BLOCK_SIZE = 0 := by decide
      by_cases hsmall : rest.length ≤ BUFFER_SIZE
      · have htr : min BUFFER_SIZE rest.length = rest.length := by omega
        rw [htr]
        have hdrop : rest.drop rest.length = [] := by
          simp
        have htake : rest.take rest.length = rest := by
          simp
        rw [hdrop, htake]
        rw [writeLoop, dif_pos (by simp : ([] : List Byte).length = 0)]
        refine ⟨rfl, ?_, ?_, ?_⟩
        · intro p hp
          simp only [List.mem_singleton] at hp
          omega
        · intro _
          rfl
        · intro _ hmod
          have hless : rest.length < BUFFER_SIZE := by
            rcases Nat.lt_or_ge rest.length BUFFER_SIZE with h | h
            · exact h
            · exfalso
              have : rest.length = BUFFER_SIZE := by omega
              rw [this] at hmod
              exact hmod hB512
          have hmodB : rest.length % BUFFER_SIZE = rest.length := Nat.mod_eq_of_lt hless
          rw [if_pos hmod]
          simp only [List.getLast?_singleton, hmodB]
          rw [Nat.sub_self, List.drop_zero]
          have : roundUpBlock rest.length - rest.length =
              BLOCK_SIZE - rest.length % BLOCK_SIZE := by
            simp only [roundUpBlock, BLOCK_SIZE] at *
            omega
          rw [this]
      · have htr : min BUFFER_SIZE rest.length = BUFFER_SIZE := by omega
        rw [htr]
        rw [if_neg (by simp [hB512])]
        have hlen' : (rest.drop BUFFER_SIZE).length = rest.length - BUFFER_SIZE := by
          simp
        have hne' : rest.drop BUFFER_SIZE ≠ [] := by
          rw [← List.length_pos]
          omega
        obtain ⟨ih1, ih2, ih3, ih4⟩ :=
          ih (rest.drop BUFFER_SIZE) (k + 1) (written + BUFFER_SIZE) (by omega)
        refine ⟨ih1, ?_, ?_, ?_⟩
        · intro p hp
          simp only [List.mem_cons] at hp
          rcases hp with rfl | hp
          · omega
          · have := ih2 p hp
            rw [hlen'] at this
            omega
        · intro _
          have h3 := ih3 hne'
          rw [hlen'] at h3
          have heq : written + BUFFER_SIZE + (rest.length - BUFFER_SIZE) = written + rest.length := by
            omega
          rw [heq] at h3
          rw [List.getLast?_cons, h3]
          rfl
        · intro _ hmod
          have hmod' : (rest.drop BUFFER_SIZE).length % BLOCK_SIZE ≠ 0 := by
            rw [hlen']
            simp only [BLOCK_SIZE, BUFFER_SIZE] at hmod hsmall ⊢
            omega
          have h4 := ih4 hne' hmod'
          rw [hlen'] at h4
          rw [List.drop_drop] at h4
          have e2 : (rest.length - BUFFER_SIZE) % BLOCK_SIZE = rest.length % BLOCK_SIZE := by
            simp only [BLOCK_SIZE, BUFFER_SIZE] at hsmall ⊢
            omega
          have e1 : BUFFER_SIZE + (rest.length - BUFFER_SIZE - (rest.length - BUFFER_SIZE) % BUFFER_SIZE)
              = rest.length - rest.length % BUFFER_SIZE := by
            simp only [BUFFER_SIZE] at hsmall ⊢
            omega
          rw [e2, e1] at h4
          rw [List.getLast?_cons, h4]
          rfl

/-- C1: for an image whose final chunk is not a multiple of the block size,
the final device write is the final partial chunk zero-padded up to the
next multiple of the block size, while every `on_write_progress` value is a
cumulative count of genuine bytes: none exceeds the image length and the
final one equals it. -/
theorem write_final_chunk_padded_progress_genuine
    (image : List Byte) (running : Nat → Bool)
    (hrun : ∀ j, running j = true)
    (hL : image.length % BLOCK_SIZE ≠ 0) :
    (writeStage image running).result = .ok () ∧
      (writeStage image running).deviceWrites.getLast? =
        some (image.drop (image.length - image.length % BUFFER_SIZE) ++
          List.replicate (BLOCK_SIZE - image.length % BLOCK_SIZE) 0) ∧
      (∀ p ∈ (writeStage image running).progress, p ≤ image.length) ∧
      (writeStage image running).progress.getLast? = some image.length ∧
      (writeStage image running).startCalls = [image.length] := by
  have hne : image ≠ [] := by
    intro h
    rw [h] at hL
    simp [BLOCK_SIZE] at hL
  obtain ⟨h1, h2, h3, h4⟩ :=
    writeLoop_ok running hrun image.length image 0 0 (le_refl _)
  unfold writeStage
  simp only [h1]
  refine ⟨by trivial, ?_, ?_, ?_, by trivial⟩
  · simpa using h4 hne hL
  · simpa using h2
  · simpa using h3 hne

/-- Witness for C1: a 700-byte image (700 is not a multiple of 512) with
the cancellation flag never raised. -/
theorem write_final_chunk_padded_progress_genuine_witness :
    ((∀ j : Nat, (fun _ : Nat => true) j = true) ∧
        (List.replicate 700 (1 : Byte)).length % BLOCK_SIZE ≠ 0) ∧
      ((writeStage (List.replicate 700 1) (fun _ => true)).result = .ok () ∧
        (writeStage (List.replicate 700 1) (fun _ => true)).deviceWrites.getLast? =
          some ((List.replicate 700 1).drop
              ((List.replicate 700 (1 : Byte)).length -
                (List.replicate 700 (1 : Byte)).length % BUFFER_SIZE) ++
            List.replicate (BLOCK_SIZE - (List.replicate 700 (1 : Byte)).length % BLOCK_SIZE) 0) ∧
        (∀ p ∈ (writeStage (List.replicate 700 1) (fun _ => true)).progress,
          p ≤ (List.replicate 700 (1 : Byte)).length) ∧
        (writeStage (List.replicate 700 1) (fun _ => true)).progress.getLast? =
          some (List.replicate 700 (1 : Byte)).length ∧
        (writeStage (List.replicate 700 1) (fun _ => true)).startCalls =
          [(List.replicate 700 (1 : Byte)).length]) :=
  ⟨⟨fun _ => rfl, by rw [List.length_replicate]; decide⟩,
    write_final_chunk_padded_progress_genuine (List.replicate 700 1)
      (fun _ => true) (fun _ => rfl) (by rw [List.length_replicate]; decide)⟩

/-! ## Decompression stage (`etchr-core/src/write.rs` lines 36-98) -/

/-- The 8 KiB buffer used by the decompression copy loop
(write.rs line 70). -/
def DECOMP_CHUNK : Nat := 8192

/-- The three streaming decoders `decompress_image` can construct
(write.rs lines 54-57). -/
inductive Codec
  | gzip
  | xz
  | zstd
  deriving DecidableEq, Repr

/-- The decoder chosen by the match on the lowercased extension string
(write.rs lines 54-65): `gz`/`gzip`, `xz`, `zst`/`zstd`, default none. -/
def codecOfExt (e : String) : Option Codec :=
  match e with
  | "gz" | "gzip" => some .gzip
  | "xz" => some .xz
  | "zst" | "zstd" => some .zstd
  | _ => none

/-- The final path component: everything after the last path separator
(model of Rust `Path::file_name` for the paths in scope). -/
def fileNameOf (cs : List Char) : List Char :=
  (cs.reverse.takeWhile (fun c => c ≠ '/')).reverse

/-- Model of Rust `Path::extension()`: the part of the file name after its
last `.`; none when the file name contains no `.`, when the part before
the last `.` is empty (dotfiles such as `.gz`), or for `..`. -/
def extensionOf (cs : List Char) : Option (List Char) :=
  let f := fileNameOf cs
  if f = ['.', '.'] then none
  else
    let e := f.reverse.takeWhile (fun c => c ≠ '.')
    if e.length = f.length then none
    else if e.length + 1 = f.length then none
    else some e.reverse

/-- The extension string computed at write.rs lines 45-49:
`path.extension().and_then(to_str).unwrap_or("").to_lowercase()`. -/
def lowerExt (path : List Char) : String :=
  String.mk (((extensionOf path).getD []).map Char.toLower)

/-- Which decoder (if any) `decompress_image` selects for a path:
the match at write.rs lines 54-65 applied to the lowercased extension. -/
def selectCodec (path : List Char) : Option Codec :=
  codecOfExt (lowerExt path)

/-- Trace of the decompression copy loop (write.rs lines 73-88). -/
structure DecompLoopOut where
  written : List Byte
  progress : List Nat
  err : Option WriteError
  deriving DecidableEq, Repr

/-- The decompression copy loop: poll the cancellation flag, read up to
8192 decoded bytes, stop on a zero-length read, append to the temporary
file and report the cumulative decoded total.  The cancellation error
(io `Interrupted` in the source, mapped to a cancellation failure by
`write::run`) is modelled directly as `WriteError.cancelled`. -/
def decompLoop (decoded : List Byte) (running : Nat → Bool) (k total : Nat) :
    DecompLoopOut :=
  if running k = false then
    { written := [], progress := [], err := some .cancelled }
  else if h : decoded.length = 0 then
    { written := [], progress := [], err := none }
  else
    let n := min DECOMP_CHUNK decoded.length
    let out := decompLoop (decoded.drop n) running (k + 1) (total + n)
    { written := decoded.take n ++ out.written
      progress := (total + n) :: out.progress
      err := out.err }
termination_by decoded.length
decreasing_by
  rw [List.length_drop]
  simp only [DECOMP_CHUNK]
  omega

/-- The resource returned by `decompress_image`: a path plus, when a
temporary file was produced, ownership of that file (`_temp_handle`). -/
structure DecompressedImage where
  path : List Char
  ownsTemp : Bool
  deriving DecidableEq, Repr

/-- Observable outcome of `decompress_image`: its result, which decoder
branch was taken, whether a temporary file was ever created, the bytes
written into it, and the `on_progress` trace. -/
structure DecompressOut where
  result : Except WriteError DecompressedImage
  decoderUsed : Option Codec
  tempEverCreated : Bool
  tempBytes : List Byte
  progress : List Nat
  deriving Repr

/-- `decompress_image` (write.rs lines 37-98).  The decoders themselves
are abstract (`decode c` maps the compressed bytes to the decoded
stream); the unrecognized-suffix branch returns the original path with no
temporary file (write.rs lines 59-64); otherwise a temporary file is
created, the decoded stream is copied into it in 8 KiB chunks, and on
success the returned resource owns the temporary file. -/
def decompressImage (decode : Codec → List Byte → List Byte)
    (tempPath : List Char) (content : List Byte) (inputPath : List Char)
    (running : Nat → Bool) : DecompressOut :=
  match selectCodec inputPath with
  | none =>
    { result := .ok { path := inputPath, ownsTemp := false }
      decoderUsed := none, tempEverCreated := false
      tempBytes := [], progress := [] }
  | some c =>
    let out := decompLoop (decode c content) running 0 0
    match out.err with
    | some e =>
      { result := .error e, decoderUsed := some c, tempEverCreated := true
        tempBytes := out.written, progress := out.progress }
    | none =>
      { result := .ok { path := tempPath, ownsTemp := true }
        decoderUsed := some c, tempEverCreated := true
        tempBytes := out.written, progress := out.progress }

/-- `takeWhile` passes over a prefix all of whose elements satisfy the
predicate. -/
theorem takeWhile_append_all {α : Type} (p : α → Bool) :
    ∀ (l₁ l₂ : List α), (∀ a ∈ l₁, p a = true) →
      (l₁ ++ l₂).takeWhile p = l₁ ++ l₂.takeWhile p := by
  intro l₁
  induction l₁ with
  | nil => intro l₂ _; simp
  | cons a l ih =>
    intro l₂ hall
    rw [List.cons_append, List.takeWhile_cons, if_pos (hall a (by simp))]
    rw [ih l₂ (fun x hx => hall x (by simp [hx]))]
    rfl

/-- Appending separator-free characters extends the file name. -/
theorem fileNameOf_append (stem sfx : List Char)
    (h : ∀ c ∈ sfx, c ≠ '/') :
    fileNameOf (stem ++ sfx) = fileNameOf stem ++ sfx := by
  unfold fileNameOf
  rw [List.reverse_append]
  rw [takeWhile_append_all _ sfx.reverse stem.reverse
    (fun c hc => by
      have : c ∈ sfx := List.mem_reverse.mp hc
      simpa using h c this)]
  rw [List.reverse_append, List.reverse_reverse]

/-- Appending `.ext` (with `ext` nonempty, free of `/` and `.`) to a path
whose file name is nonempty yields a path whose extension is `ext`. -/
theorem extensionOf_append_dot (stem ext : List Char)
    (hfn : fileNameOf stem ≠ [])
    (hne : ext ≠ [])
    (hslash : ∀ c ∈ ext, c ≠ '/')
    (hdot : ∀ c ∈ ext, c ≠ '.') :
    extensionOf (stem ++ '.' :: ext) = some ext := by
  have hf : fileNameOf (stem ++ '.' :: ext) = fileNameOf stem ++ '.' :: ext :=
    fileNameOf_append stem ('.' :: ext)
      (fun c hc => by
        rcases List.mem_cons.mp hc with rfl | hc
        · decide
        · exact hslash c hc)
  unfold extensionOf
  rw [hf]
  have hlen : (fileNameOf stem).length ≠ 0 := by
    simpa [List.length_eq_zero] using hfn
  have hextlen : ext.length ≠ 0 := by
    simpa [List.length_eq_zero] using hne
  rw [if_neg (by
    intro hcontra
    apply congrArg List.length at hcontra
    simp at hcontra
    omega)]
  have he : (fileNameOf stem ++ '.' :: ext).reverse.takeWhile (fun c => c ≠ '.') =
      ext.reverse := by
    rw [List.reverse_append, List.reverse_cons]
    rw [List.append_assoc]
    rw [takeWhile_append_all _ ext.reverse _
      (fun c hc => by
        have : c ∈ ext := List.mem_reverse.mp hc
        simpa using hdot c this)]
    rw [List.singleton_append, List.takeWhile_cons]
    simp
  simp only [he]
  simp only [List.length_reverse, List.length_append, List.length_cons]
  rw [if_neg (by omega)]
  rw [if_neg (by omega)]
  rw [List.reverse_reverse]

/-- An unrecognized suffix makes `decompress_image` return a pass-through
wrapper over the original path with no temporary file created. -/
theorem decompressImage_passthrough (decode : Codec → List Byte → List Byte)
    (tempPath : List Char) (content : List Byte) (path : List Char)
    (running : Nat → Bool) (h : selectCodec path = none) :
    decompressImage decode tempPath content path running =
      { result := .ok { path := path, ownsTemp := false }
        decoderUsed := none, tempEverCreated := false
        tempBytes := [], progress := [] } := by
  unfold decompressImage
  rw [h]

/-- With the cancellation flag never raised, the decompression copy loop
completes without error and writes the entire decoded stream. -/
theorem decompLoop_ok (running : Nat → Bool) (hrun : ∀ j, running j = true) :
    ∀ (n : Nat) (decoded : List Byte) (k total : Nat), decoded.length ≤ n →
      (decompLoop decoded running k total).err = none ∧
      (decompLoop decoded running k total).written = decoded := by
  intro n
  induction n with
  | zero =>
    intro decoded k total hn
    have hlen : decoded.length = 0 := by omega
    rw [decompLoop, if_neg (by simp [hrun k]), dif_pos hlen]
    exact ⟨rfl, (List.length_eq_zero.mp hlen).symm⟩
  | succ n ih =>
    intro decoded k total hn
    by_cases hlen : decoded.length = 0
    · rw [decompLoop, if_neg (by simp [hrun k]), dif_pos hlen]
      exact ⟨rfl, (List.length_eq_zero.mp hlen).symm⟩
    · rw [decompLoop, if_neg (by simp [hrun k]), dif_neg hlen]
      simp only
      obtain ⟨ih1, ih2⟩ := ih (decoded.drop (min DECOMP_CHUNK decoded.length))
        (k + 1) (total + min DECOMP_CHUNK decoded.length)
        (by
          rw [List.length_drop]
          simp only [DECOMP_CHUNK] at *
          omega)
      refine ⟨ih1, ?_⟩
      rw [ih2, List.take_append_drop]

/-- Shared helper: the decoder branch taken for `stem ++ "." ++ ext`
is the one `codecOfExt` names for the lowercased `ext`. -/
theorem selectCodec_append_dot (stem ext : List Char)
    (hfn : fileNameOf stem ≠ [])
    (hne : ext ≠ [])
    (hslash : ∀ c ∈ ext, c ≠ '/')
    (hdot : ∀ c ∈ ext, c ≠ '.') :
    selectCodec (stem ++ '.' :: ext) =
      codecOfExt (String.mk (ext.map Char.toLower)) := by
  unfold selectCodec lowerExt
  rw [extensionOf_append_dot stem ext hfn hne hslash hdot]
  rfl

/-- C5: the decompression stage selects its decoder solely from the
filename suffix — `.gz`/`.gzip` select gzip, `.xz` selects xz, `.zst` and
`.zstd` select zstd, and any other suffix gives a pass-through over the
original path with no temporary file created; for a recognized suffix
(shown for `.gz`) a temporary file is created, the whole decoded stream is
written to it and the returned resource owns the temporary file. -/
theorem decompress_suffix_selects_decoder
    (decode : Codec → List Byte → List Byte) (tempPath : List Char)
    (content : List Byte) (path stem : List Char) (running : Nat → Bool)
    (hrun : ∀ j, running j = true)
    (hpass : selectCodec path = none)
    (hstem : fileNameOf stem ≠ []) :
    decompressImage decode tempPath content path running =
      { result := .ok { path := path, ownsTemp := false }
        decoderUsed := none, tempEverCreated := false
        tempBytes := [], progress := [] } ∧
    (decompressImage decode tempPath content (stem ++ ".gz".data) running).decoderUsed
        = some .gzip ∧
    (decompressImage decode tempPath content (stem ++ ".gz".data) running).result
        = .ok { path := tempPath, ownsTemp := true } ∧
    (decompressImage decode tempPath content (stem ++ ".gz".data) running).tempEverCreated
        = true ∧
    (decompressImage decode tempPath content (stem ++ ".gz".data) running).tempBytes
        = decode .gzip content ∧
    (decompressImage decode tempPath content (stem ++ ".gzip".data) running).decoderUsed
        = some .gzip ∧
    (decompressImage decode tempPath content (stem ++ ".xz".data) running).decoderUsed
        = some .xz ∧
    (decompressImage decode tempPath content (stem ++ ".zst".data) running).decoderUsed
        = some .zstd ∧
    (decompressImage decode tempPath content (stem ++ ".zstd".data) running).decoderUsed
        = some .zstd := by
  have hgz : selectCodec (stem ++ ".gz".data) = some .gzip := by
    have : (".gz".data : List Char) = '.' :: "gz".data := by decide
    rw [this, selectCodec_append_dot stem "gz".data hstem (by decide)
      (by decide) (by decide)]
    decide
  have hgzip : selectCodec (stem ++ ".gzip".data) = some .gzip := by
    have : (".gzip".data : List Char) = '.' :: "gzip".data := by decide
    rw [this, selectCodec_append_dot stem "gzip".data hstem (by decide)
      (by decide) (by decide)]
    decide
  have hxz : selectCodec (stem ++ ".xz".data) = some .xz := by
    have : (".xz".data : List Char) = '.' :: "xz".data := by decide
    rw [this, selectCodec_append_dot stem "xz".data hstem (by decide)
      (by decide) (by decide)]
    decide
  have hzst : selectCodec (stem ++ ".zst".data) = some .zstd := by
    have : (".zst".data : List Char) = '.' :: "zst".data := by decide
    rw [this, selectCodec_append_dot stem "zst".data hstem (by decide)
      (by decide) (by decide)]
    decide
  have hzstd : selectCodec (stem ++ ".zstd".data) = some .zstd := by
    have : (".zstd".data : List Char) = '.' :: "zstd".data := by decide
    rw [this, selectCodec_append_dot stem "zstd".data hstem (by decide)
      (by decide) (by decide)]
    decide
  obtain ⟨hok, hwr⟩ := decompLoop_ok running hrun (decode Codec.gzip content).length
    (decode Codec.gzip content) 0 0 (le_refl _)
  refine ⟨decompressImage_passthrough decode tempPath content path running hpass,
    ?_, ?_, ?_, ?_, ?_, ?_, ?_, ?_⟩
  · unfold decompressImage
    rw [hgz]
    simp only [hok]
  · unfold decompressImage
    rw [hgz]
    simp only [hok]
  · unfold decompressImage
    rw [hgz]
    simp only [hok]
  · unfold decompressImage
    rw [hgz]
    simp only [hok, hwr]
  · unfold decompressImage
    rw [hgzip]
    cases hcase : (decompLoop (decode Codec.gzip content) running 0 0).err <;> simp [hcase]
  · unfold decompressImage
    rw [hxz]
    cases hcase : (decompLoop (decode Codec.xz content) running 0 0).err <;> simp [hcase]
  · unfold decompressImage
    rw [hzst]
    cases hcase : (decompLoop (decode Codec.zstd content) running 0 0).err <;> simp [hcase]
  · unfold decompressImage
    rw [hzstd]
    cases hcase : (decompLoop (decode Codec.zstd content) running 0 0).err <;> simp [hcase]

/-- Witness for C5: path `disk.img` (unrecognized suffix) and stem
`image`, identity decoders, flag never raised. -/
theorem decompress_suffix_selects_decoder_witness :
    ((∀ j : Nat, (fun _ : Nat => true) j = true) ∧
        selectCodec "disk.img".data = none ∧
        fileNameOf "image".data ≠ []) ∧
      (decompressImage (fun _ l => l) "/tmp/etchr".data [7, 8] "disk.img".data
          (fun _ => true) =
        { result := .ok { path := "disk.img".data, ownsTemp := false }
          decoderUsed := none, tempEverCreated := false
          tempBytes := [], progress := [] } ∧
        (decompressImage (fun _ l => l) "/tmp/etchr".data [7, 8]
            ("image".data ++ ".gz".data) (fun _ => true)).decoderUsed = some .gzip ∧
        (decompressImage (fun _ l => l) "/tmp/etchr".data [7, 8]
            ("image".data ++ ".gz".data) (fun _ => true)).result =
          .ok { path := "/tmp/etchr".data, ownsTemp := true } ∧
        (decompressImage (fun _ l => l) "/tmp/etchr".data [7, 8]
            ("image".data ++ ".gz".data) (fun _ => true)).tempEverCreated = true ∧
        (decompressImage (fun _ l => l) "/tmp/etchr".data [7, 8]
            ("image".data ++ ".gz".data) (fun _ => true)).tempBytes =
          (fun (_ : Codec) (l : List Byte) => l) Codec.gzip [7, 8] ∧
        (decompressImage (fun _ l => l) "/tmp/etchr".data [7, 8]
            ("image".data ++ ".gzip".data) (fun _ => true)).decoderUsed = some .gzip ∧
        (decompressImage (fun _ l => l) "/tmp/etchr".data [7, 8]
            ("image".data ++ ".xz".data) (fun _ => true)).decoderUsed = some .xz ∧
        (decompressImage (fun _ l => l) "/tmp/etchr".data [7, 8]
            ("image".data ++ ".zst".data) (fun _ => true)).decoderUsed = some .zstd ∧
        (decompressImage (fun _ l => l) "/tmp/etchr".data [7, 8]
            ("image".data ++ ".zstd".data) (fun _ => true)).decoderUsed = some .zstd) :=
  ⟨⟨fun _ => rfl, by decide, by decide⟩,
    decompress_suffix_selects_decoder (fun _ l => l) "/tmp/etchr".data [7, 8]
      "disk.img".data "image".data (fun _ => true) (fun _ => rfl)
      (by decide) (by decide)⟩

/-! ## Verification stage (`etchr-core/src/write.rs` lines 194-229) -/

/-- Trace of the lockstep verification loop: the bytes fed to the image
hasher, the bytes fed to the device hasher, the cumulative counts passed
to `on_verify_progress`, and the error ending the loop. -/
structure VerifyLoopOut where
  imageFed : List Byte
  deviceFed : List Byte
  progress : List Nat
  err : Option WriteError
  deriving DecidableEq, Repr

/-- The lockstep verification loop (write.rs lines 206-221): while the
`image_len` budget is not exhausted, poll the cancellation flag, read the
same `min BUFFER_SIZE remaining` number of bytes from image and device,
feed each chunk into the respective hasher, and report
`image_len - remaining`. -/
def verifyLoop (img dev : Nat → Byte) (running : Nat → Bool) (L : Nat)
    (pos k : Nat) : VerifyLoopOut :=
  if h : pos < L then
    if running k = false then
      { imageFed := [], deviceFed := [], progress := [], err := some .cancelled }
    else
      let chunk := min BUFFER_SIZE (L - pos)
      let out := verifyLoop img dev running L (pos + chunk) (k + 1)
      { imageFed := (List.range chunk).map (fun i => img (pos + i)) ++ out.imageFed
        deviceFed := (List.range chunk).map (fun i => dev (pos + i)) ++ out.deviceFed
        progress := (pos + chunk) :: out.progress
        err := out.err }
  else { imageFed := [], deviceFed := [], progress := [], err := none }
termination_by L - pos
decreasing_by
  simp only [BUFFER_SIZE]
  omega

/-- Observable outcome of the verification stage. -/
structure VerifyOut where
  result : Except WriteError Unit
  startCalls : List Nat
  imageFed : List Byte
  deviceFed : List Byte
  progress : List Nat
  deriving Repr

/-- The verification stage of `write::run` (write.rs lines 194-229):
reopen image and device, call `on_verify_start L`, run the lockstep loop
feeding two SHA-256 hashers — modelled as an abstract digest function `H`
applied to the full stream each hasher was fed — and compare the two
digests only after the loop has consumed the whole budget; differing
digests give the verification-mismatch error (write.rs lines 223-228). -/
def verifyStage (H : List Byte → List Byte) (img dev : Nat → Byte) (L : Nat)
    (running : Nat → Bool) : VerifyOut :=
  let out := verifyLoop img dev running L 0 0
  match out.err with
  | some e =>
    { result := .error e, startCalls := [L], imageFed := out.imageFed
      deviceFed := out.deviceFed, progress := out.progress }
  | none =>
    { result := if H out.imageFed = H out.deviceFed then .ok ()
        else .error .verificationMismatch
      startCalls := [L], imageFed := out.imageFed
      deviceFed := out.deviceFed, progress := out.progress }

/-- The shape of the verification loop (its progress trace and its error)
is blind to the data being verified: it depends only on the budget and
the cancellation schedule. -/
theorem verifyLoop_blind (running : Nat → Bool) :
    ∀ (n L pos k : Nat) (img dev img' dev' : Nat → Byte), L - pos ≤ n →
      (verifyLoop img dev running L pos k).progress =
        (verifyLoop img' dev' running L pos k).progress ∧
      (verifyLoop img dev running L pos k).err =
        (verifyLoop img' dev' running L pos k).err := by
  intro n
  induction n with
  | zero =>
    intro L pos k img dev img' dev' hn
    have hge : ¬ pos < L := by omega
    rw [verifyLoop, dif_neg hge, verifyLoop, dif_neg hge]
    exact ⟨rfl, rfl⟩
  | succ n ih =>
    intro L pos k img dev img' dev' hn
    by_cases hlt : pos < L
    · rw [verifyLoop, dif_pos hlt]
      rw [verifyLoop, dif_pos hlt]
      by_cases hr : running k = false
      · rw [if_pos hr, if_pos hr]
        exact ⟨rfl, rfl⟩
      · rw [if_neg hr, if_neg hr]
        simp only
        have hB : 0 < BUFFER_SIZE := by simp [BUFFER_SIZE]
        obtain ⟨ihp, ihe⟩ := ih L (pos + min BUFFER_SIZE (L - pos)) (k + 1)
          img dev img' dev' (by omega)
        rw [ihp, ihe]
        exact ⟨rfl, rfl⟩
    · rw [verifyLoop, dif_neg hlt, verifyLoop, dif_neg hlt]
      exact ⟨rfl, rfl⟩

/-- With the cancellation flag never raised, the verification loop
consumes its whole budget from both sides, reports progress up to the
budget with the budget itself last, and ends without error. -/
theorem verifyLoop_ok (img dev : Nat → Byte) (running : Nat → Bool)
    (hrun : ∀ j, running j = true) :
    ∀ (n L pos k : Nat), L - pos ≤ n →
      (verifyLoop img dev running L pos k).err = none ∧
      (verifyLoop img dev running L pos k).imageFed =
        (List.range (L - pos)).map (fun i => img (pos + i)) ∧
      (verifyLoop img dev running L pos k).deviceFed =
        (List.range (L - pos)).map (fun i => dev (pos + i)) ∧
      (∀ p ∈ (verifyLoop img dev running L pos k).progress, p ≤ L) ∧
      (pos < L →
        (verifyLoop img dev running L pos k).progress.getLast? = some L) := by
  intro n
  induction n with
  | zero =>
    intro L pos k hn
    have hge : ¬ pos < L := by omega
    rw [verifyLoop, dif_neg hge]
    refine ⟨rfl, by simp; omega, by simp; omega, by simp, by omega⟩
  | succ n ih =>
    intro L pos k hn
    by_cases hlt : pos < L
    · rw [verifyLoop, dif_pos hlt, if_neg (by simp [hrun k])]
      simp only
      have hB : 0 < BUFFER_SIZE := by simp [BUFFER_SIZE]
      have hchunk : 0 < min BUFFER_SIZE (L - pos) := by omega
      obtain ⟨ih1, ih2, ih3, ih4, ih5⟩ :=
        ih L (pos + min BUFFER_SIZE (L - pos)) (k + 1) (by omega)
      have hfeed : ∀ (f : Nat → Byte) (c r : Nat), c + r = L - pos →
          (List.range c).map (fun i => f (pos + i)) ++
            (List.range r).map (fun i => f (pos + c + i)) =
          (List.range (L - pos)).map (fun i => f (pos + i)) := by
        intro f c r hcr
        rw [← hcr, List.range_add, List.map_append, List.map_map]
        congr 1
        apply List.map_congr_left
        intro i hi
        simp only [Function.comp]
        congr 1
        omega
      refine ⟨ih1, ?_, ?_, ?_, ?_⟩
      · rw [ih2, hfeed img (min BUFFER_SIZE (L - pos))
          (L - (pos + min BUFFER_SIZE (L - pos))) (by omega)]
      · rw [ih3, hfeed dev (min BUFFER_SIZE (L - pos))
          (L - (pos + min BUFFER_SIZE (L - pos))) (by omega)]
      · intro p hp
        simp only [List.mem_cons] at hp
        rcases hp with rfl | hp
        · omega
        · exact ih4 p hp
      · intro _
        by_cases hmore : pos + min BUFFER_SIZE (L - pos) < L
        · rw [List.getLast?_cons, ih5 hmore]
          rfl
        · have hend : pos + min BUFFER_SIZE (L - pos) = L := by omega
          have hnil : (verifyLoop img dev running L
              (pos + min BUFFER_SIZE (L - pos)) (k + 1)).progress = [] := by
            rw [verifyLoop, dif_neg (by omega)]
          rw [List.getLast?_cons, hnil]
          simp [hend]
    · rw [verifyLoop, dif_neg hlt]
      refine ⟨rfl, by simp; omega, by simp; omega, by simp, by omega⟩

/-- C7: with verification requested and no cancellation, the verify stage
feeds exactly the first `L` bytes of the image and of the device into the
per-side digests, succeeds exactly when the two full-stream digests agree
and reports the mismatch error exactly when they differ, its progress
trace is independent of the data (no short-circuit on a differing byte)
with all values at most `L` and the final value equal to `L`, and
`on_verify_start` is called once with `L`. -/
theorem verify_lockstep_full_stream_digests
    (H : List Byte → List Byte) (img dev : Nat → Byte) (L : Nat)
    (running : Nat → Bool) (hrun : ∀ j, running j = true) :
    (verifyStage H img dev L running).imageFed = (List.range L).map img ∧
      (verifyStage H img dev L running).deviceFed = (List.range L).map dev ∧
      ((verifyStage H img dev L running).result = .ok () ↔
        H ((List.range L).map img) = H ((List.range L).map dev)) ∧
      ((verifyStage H img dev L running).result = .error .verificationMismatch ↔
        H ((List.range L).map img) ≠ H ((List.range L).map dev)) ∧
      (∀ p ∈ (verifyStage H img dev L running).progress, p ≤ L) ∧
      (0 < L → (verifyStage H img dev L running).progress.getLast? = some L) ∧
      (∀ (H' : List Byte → List Byte) (img' dev' : Nat → Byte),
        (verifyStage H' img' dev' L running).progress =
          (verifyStage H img dev L running).progress) ∧
      (verifyStage H img dev L running).startCalls = [L] := by
  obtain ⟨h1, h2, h3, h4, h5⟩ :=
    verifyLoop_ok img dev running hrun L L 0 0 (by omega)
  have hfix : ∀ f : Nat → Byte,
      (List.range (L - 0)).map (fun i => f (0 + i)) = (List.range L).map f := by
    intro f
    simp
  rw [hfix img] at h2
  rw [hfix dev] at h3
  refine ⟨?_, ?_, ?_, ?_, ?_, ?_, ?_, ?_⟩
  · simp only [verifyStage, h1, h2, h3]
  · simp only [verifyStage, h1, h2, h3]
  · simp only [verifyStage, h1, h2, h3]
    by_cases hEq : H ((List.range L).map img) = H ((List.range L).map dev)
    · simp [hEq]
    · simp [hEq]
  · simp only [verifyStage, h1, h2, h3]
    by_cases hEq : H ((List.range L).map img) = H ((List.range L).map dev)
    · simp [hEq]
    · simp [hEq]
  · intro p hp
    simp only [verifyStage, h1] at hp
    exact h4 p hp
  · intro hL
    simp only [verifyStage, h1]
    exact h5 hL
  · intro H' img' dev'
    obtain ⟨hp, he⟩ :=
      verifyLoop_blind running L L 0 0 img' dev' img dev (by omega)
    simp only [verifyStage, he, h1, hp]
  · simp only [verifyStage, h1]

/-- Witness for C7: a five-byte budget with differing device data, the
identity digest, and the flag never raised. -/
theorem verify_lockstep_full_stream_digests_witness :
    (∀ j : Nat, (fun _ : Nat => true) j = true) ∧
      ((verifyStage (fun l => l) (fun i => i) (fun i => i + 1) 5
          (fun _ => true)).imageFed = (List.range 5).map (fun i => i) ∧
        (verifyStage (fun l => l) (fun i => i) (fun i => i + 1) 5
            (fun _ => true)).deviceFed = (List.range 5).map (fun i => i + 1) ∧
        ((verifyStage (fun l => l) (fun i => i) (fun i => i + 1) 5
            (fun _ => true)).result = .ok () ↔
          (fun l : List Byte => l) ((List.range 5).map (fun i => i)) =
            (fun l : List Byte => l) ((List.range 5).map (fun i => i + 1))) ∧
        ((verifyStage (fun l => l) (fun i => i) (fun i => i + 1) 5
            (fun _ => true)).result = .error .verificationMismatch ↔
          (fun l : List Byte => l) ((List.range 5).map (fun i => i)) ≠
            (fun l : List Byte => l) ((List.range 5).map (fun i => i + 1))) ∧
        (∀ p ∈ (verifyStage (fun l => l) (fun i => i) (fun i => i + 1) 5
            (fun _ => true)).progress, p ≤ 5) ∧
        (0 < 5 → (verifyStage (fun l => l) (fun i => i) (fun i => i + 1) 5
            (fun _ => true)).progress.getLast? = some 5) ∧
        (∀ (H' : List Byte → List Byte) (img' dev' : Nat → Byte),
          (verifyStage H' img' dev' 5 (fun _ => true)).progress =
            (verifyStage (fun l => l) (fun i => i) (fun i => i + 1) 5
              (fun _ => true)).progress) ∧
        (verifyStage (fun l => l) (fun i => i) (fun i => i + 1) 5
            (fun _ => true)).startCalls = [5]) :=
  ⟨fun _ => rfl,
    verify_lockstep_full_stream_digests (fun l => l) (fun i => i)
      (fun i => i + 1) 5 (fun _ => true) (fun _ => rfl)⟩

/-! ## Lowercasing helpers (for C10) -/

/-- Lowercasing is idempotent: `Char.toLower` only maps `A`-`Z` into
`a`-`z`, which it then leaves unchanged. -/
theorem toLower_toLower (c : Char) :
    Char.toLower (Char.toLower c) = Char.toLower c := by
  unfold Char.toLower
  by_cases h : c.toNat ≥ 65 ∧ c.toNat ≤ 90
  · rw [if_pos h]
    have h2 : (Char.ofNat (c.toNat + 32)).toNat = c.toNat + 32 := by
      have hv : (c.toNat + 32).isValidChar := Or.inl (by omega)
      unfold Char.ofNat
      rw [dif_pos hv]
      rfl
    rw [if_neg (by omega :
      ¬ ((Char.ofNat (c.toNat + 32)).toNat ≥ 65 ∧
        (Char.ofNat (c.toNat + 32)).toNat ≤ 90))]
  · rw [if_neg h, if_neg h]

/-- `Char.toLower` either fixes its argument or produces a char in
`a`-`z`. -/
theorem toLower_eq_or (c : Char) :
    Char.toLower c = c ∨
      (97 ≤ (Char.toLower c).toNat ∧ (Char.toLower c).toNat ≤ 122) := by
  unfold Char.toLower
  by_cases h : c.toNat ≥ 65 ∧ c.toNat ≤ 90
  · right
    rw [if_pos h]
    have h2 : (Char.ofNat (c.toNat + 32)).toNat = c.toNat + 32 := by
      have hv : (c.toNat + 32).isValidChar := Or.inl (by omega)
      unfold Char.ofNat
      rw [dif_pos hv]
      rfl
    rw [h2]
    omega
  · left
    rw [if_neg h]

/-- Lowercasing cannot produce a character below code point 97 that the
original was not already. -/
theorem toLower_ne_low (c a : Char) (ha : a.toNat < 97) (h : c ≠ a) :
    Char.toLower c ≠ a := by
  rcases toLower_eq_or c with he | ⟨h1, h2⟩
  · rw [he]
    exact h
  · intro hc
    rw [hc] at h1
    omega

/-- C10: suffix recognition is case-insensitive (the extension is
lowercased before matching, so `.GZ`, `.Xz`, `.ZSTD` select the
corresponding decoders) and looks only at the final extension: a
recognized suffix elsewhere in the name (as in `*.gz.img`) does not
trigger decompression — such a path is passed through untouched. -/
theorem suffix_case_insensitive_final_extension_only
    (decode : Codec → List Byte → List Byte) (tempPath : List Char)
    (content : List Byte) (running : Nat → Bool)
    (stem ext : List Char)
    (hfn : fileNameOf stem ≠ [])
    (hne : ext ≠ [])
    (hslash : ∀ c ∈ ext, c ≠ '/')
    (hdot : ∀ c ∈ ext, c ≠ '.') :
    selectCodec (stem ++ '.' :: ext) =
      selectCodec (stem ++ '.' :: ext.map Char.toLower) ∧
      selectCodec "image.GZ".data = some .gzip ∧
      selectCodec "image.Xz".data = some .xz ∧
      selectCodec "image.ZSTD".data = some .zstd ∧
      selectCodec "image.zSt".data = some .zstd ∧
      (∀ base : List Char,
        decompressImage decode tempPath content (base ++ ".gz.img".data) running =
          { result := .ok { path := base ++ ".gz.img".data, ownsTemp := false }
            decoderUsed := none, tempEverCreated := false
            tempBytes := [], progress := [] }) := by
  refine ⟨?_, by decide, by decide, by decide, by decide, ?_⟩
  · rw [selectCodec_append_dot stem ext hfn hne hslash hdot]
    rw [selectCodec_append_dot stem (ext.map Char.toLower) hfn
      (by simpa using hne)
      (fun c hc => by
        obtain ⟨x, hx, rfl⟩ := List.mem_map.mp hc
        exact toLower_ne_low x '/' (by decide) (hslash x hx))
      (fun c hc => by
        obtain ⟨x, hx, rfl⟩ := List.mem_map.mp hc
        exact toLower_ne_low x '.' (by decide) (hdot x hx))]
    rw [List.map_map]
    have : ext.map (Char.toLower ∘ Char.toLower) = ext.map Char.toLower := by
      apply List.map_congr_left
      intro x hx
      simp only [Function.comp]
      exact toLower_toLower x
    rw [this]
  · intro base
    apply decompressImage_passthrough
    have hsfx : (".gz.img".data : List Char) = ".gz".data ++ '.' :: "img".data := by
      decide
    rw [hsfx, ← List.append_assoc]
    rw [selectCodec_append_dot (base ++ ".gz".data) "img".data
      (by
        rw [fileNameOf_append base ".gz".data (by decide)]
        simp)
      (by decide) (by decide) (by decide)]
    decide

/-- Witness for C10: stem `image`, extension `GZ`, identity decoders. -/
theorem suffix_case_insensitive_final_extension_only_witness :
    (fileNameOf "image".data ≠ [] ∧
        ("GZ".data : List Char) ≠ [] ∧
        (∀ c ∈ ("GZ".data : List Char), c ≠ '/') ∧
        (∀ c ∈ ("GZ".data : List Char), c ≠ '.')) ∧
      (selectCodec ("image".data ++ '.' :: "GZ".data) =
          selectCodec ("image".data ++ '.' :: "GZ".data.map Char.toLower) ∧
        selectCodec "image.GZ".data = some .gzip ∧
        selectCodec "image.Xz".data = some .xz ∧
        selectCodec "image.ZSTD".data = some .zstd ∧
        selectCodec "image.zSt".data = some .zstd ∧
        (∀ base : List Char,
          decompressImage (fun _ l => l) "/tmp/etchr".data [3] (base ++ ".gz.img".data)
              (fun _ => true) =
            { result := .ok { path := base ++ ".gz.img".data, ownsTemp := false }
              decoderUsed := none, tempEverCreated := false
              tempBytes := [], progress := [] })) :=
  ⟨⟨by decide, by decide, by decide, by decide⟩,
    suffix_case_insensitive_final_extension_only (fun _ l => l) "/tmp/etchr".data
      [3] (fun _ => true) "image".data "GZ".data
      (by decide) (by decide) (by decide) (by decide)⟩

/-! ## Device enumerator (`etchr-core/src/platform/linux.rs`) -/

/-- Boolean prefix test over character lists (Rust `str::starts_with`). -/
def startsWithStr (p cs : List Char) : Bool := decide (cs.take p.length = p)

/-- `get_parent_device_path` (linux.rs lines 16-30): for `/dev/sd*` paths
take everything up to and including the last alphabetic character (Rust
`rfind(char::is_alphabetic)`, modelled with ASCII `Char.isAlpha`); for
`/dev/mmcblk*` and `/dev/nvme*` paths take everything before the first
`p` (Rust `find('p')`); otherwise, and when the searched character class
is absent, return the path unchanged. -/
def getParentDevicePath (cs : List Char) : List Char :=
  if startsWithStr "/dev/sd".data cs then
    if cs.any (fun c => c.isAlpha) then
      (cs.reverse.dropWhile (fun c => !c.isAlpha)).reverse
    else cs
  else if startsWithStr "/dev/mmcblk".data cs || startsWithStr "/dev/nvme".data cs then
    cs.takeWhile (fun c => c ≠ 'p')
  else cs

/-- An entry of the `sysinfo` disk list: a device name and its mount
point, as used both for the system-disk lookup and for mount-point
resolution. -/
structure MountEntry where
  name : List Char
  mountPoint : List Char
  deriving DecidableEq, Repr

/-- An entry of `/sys/block`: the kernel device name and the contents of
its `removable` and `size` attribute files (`none` models a read
failure). -/
structure BlockEntry where
  name : List Char
  removable : Option (List Char)
  size : Option (List Char)
  deriving DecidableEq, Repr

/-- The `Device` value type (device.rs): system path, kernel name, size
in GB and mount point.  The `f64` size is modelled exactly over `ℚ`. -/
structure Device where
  path : List Char
  name : List Char
  size_gb : ℚ
  mount_point : List Char
  deriving DecidableEq, Repr

/-- Error kinds of device discovery (spec section 7). -/
inductive DiscoveryError
  | systemDriveUnknown
  | unsupported
  | ioFailure
  deriving DecidableEq, Repr

/-- `str::trim` as applied by `read_sys_file` (linux.rs line 11). -/
def trimStr (cs : List Char) : List Char :=
  ((cs.dropWhile Char.isWhitespace).reverse.dropWhile Char.isWhitespace).reverse

/-- Rust `str::parse::<u64>`: an optional `+`, then one or more digits,
rejecting values outside `u64`. -/
def parseU64 (cs : List Char) : Option Nat :=
  let ds := match cs with
    | '+' :: rest => rest
    | _ => cs
  if ds ≠ [] ∧ ds.all Char.isDigit then
    let v := ds.foldl (fun a c => a * 10 + (c.toNat - 48)) 0
    if v < 2 ^ 64 then some v else none
  else none

/-- `PathBuf::from("/dev/").join(name)`: joining an absolute path
replaces the base. -/
def devJoin (name : List Char) : List Char :=
  match name with
  | '/' :: _ => name
  | _ => "/dev/".data ++ name

/-- linux.rs lines 52-61: the parent path of the first disk mounted at
`/`, none when no such disk exists. -/
def systemDiskParent (disks : List MountEntry) : Option (List Char) :=
  (disks.find? (fun d => decide (d.mountPoint = "/".data))).map
    (fun d => getParentDevicePath (devJoin d.name))

/-- linux.rs lines 96-105: scan the disk list for the first entry whose
name starts with the device name **and** whose mount point is non-empty
(the loop keeps scanning past prefix matches with an empty mount point);
empty string when there is none. -/
def resolveMount (disks : List MountEntry) (deviceName : List Char) : List Char :=
  match disks.find? (fun d =>
      startsWithStr deviceName d.name && decide (d.mountPoint ≠ [])) with
  | some d => d.mountPoint
  | none => []

/-- Modelled from the spec for comparison with `resolveMount`: "resolve a
mount point by cross-referencing the live mount table by device-name
prefix match (first match wins; empty string if none)". -/
def resolveMountSpec (disks : List MountEntry) (deviceName : List Char) :
    List Char :=
  match disks.find? (fun d => startsWithStr deviceName d.name) with
  | some d => d.mountPoint
  | none => []

/-- `get_removable_devices` (linux.rs lines 50-116): determine the system
disk's parent (failing with `SystemDriveUnknown` when the root mount has
no disk), then keep every `/sys/block` entry that is not a loop device,
is not the system-disk parent, has `removable` reading `1`, and has a
non-zero sector count; its size in GB is `sectors * 512 / 1024³` — the
multiplication `size_sectors * 512` at linux.rs line 93 is performed in
`u64` and therefore wraps modulo `2 ^ 64` before the conversion to `f64`
and the division — and its mount point comes from `resolveMount`. -/
def getRemovableDevices (disks : List MountEntry) (blocks : List BlockEntry) :
    Except DiscoveryError (List Device) :=
  match systemDiskParent disks with
  | none => .error .systemDriveUnknown
  | some parent =>
    .ok (blocks.filterMap (fun b =>
      if startsWithStr "loop".data b.name || decide (devJoin b.name = parent) then
        none
      else if ¬ ((b.removable.map (fun s => decide (trimStr s = "1".data))).getD false) then
        none
      else if ((b.size.bind (fun s => parseU64 (trimStr s))).getD 0) = 0 then
        none
      else some
        { path := devJoin b.name
          name := b.name
          size_gb :=
            (((((b.size.bind (fun s => parseU64 (trimStr s))).getD 0) * 512) % 2 ^ 64 :
                Nat) : ℚ) /
              (1024 * 1024 * 1024)
          mount_point := resolveMount disks b.name }))

/-- Outcome of a call that may terminate abnormally: either a returned
value or an abnormal termination (Rust panic) with its message. -/
inductive CallOutcome (α : Type) where
  | returned (val : α)
  | panicked (msg : List Char)
  deriving DecidableEq, Repr

/-- `get_removable_devices` on Windows (windows.rs lines 13-19): the body
is `unimplemented!("Windows support is not yet implemented.")`, which
panics unconditionally (with the `not implemented:` prefix the macro
adds) rather than returning any value. -/
def windowsGetRemovableDevices :
    CallOutcome (Except DiscoveryError (List Device)) :=
  .panicked "not implemented: Windows support is not yet implemented.".data

/-- `dropWhile` skips a prefix all of whose elements satisfy the
predicate. -/
theorem dropWhile_append_all {α : Type} (p : α → Bool) :
    ∀ (l₁ l₂ : List α), (∀ a ∈ l₁, p a = true) →
      (l₁ ++ l₂).dropWhile p = l₂.dropWhile p := by
  intro l₁
  induction l₁ with
  | nil => intro l₂ _; simp
  | cons a l ih =>
    intro l₂ hall
    rw [List.cons_append, List.dropWhile_cons, if_pos (hall a (by simp))]
    exact ih l₂ (fun x hx => hall x (by simp [hx]))

/-- `takeWhile` keeps a list all of whose elements satisfy the
predicate. -/
theorem takeWhile_all {α : Type} (p : α → Bool) (l : List α)
    (h : ∀ a ∈ l, p a = true) : l.takeWhile p = l := by
  have := takeWhile_append_all p l [] h
  simpa using this

/-- Helper for C8, `/dev/sd` branch: the last alphabetic character of
`"/dev/sd" ++ α ++ ν` (with `α` nonempty alphabetic and `ν` free of
alphabetic characters) is the last character of `α`, so
`rfind(is_alphabetic)` keeps exactly `"/dev/sd" ++ α`. -/
theorem parent_sd (α ν : List Char)
    (hα : α ≠ []) (hαA : ∀ c ∈ α, c.isAlpha = true)
    (hν : ∀ c ∈ ν, c.isAlpha = false) :
    getParentDevicePath ("/dev/sd".data ++ α ++ ν) = "/dev/sd".data ++ α := by
  unfold getParentDevicePath
  rw [if_pos (by
    unfold startsWithStr
    rw [List.append_assoc, List.take_left]
    simp)]
  have hany : (("/dev/sd".data ++ α) ++ ν).any (fun c => c.isAlpha) = true := by
    have hsd : ("/dev/sd".data).any (fun c => c.isAlpha) = true := by decide
    simp [List.any_append, hsd]
  rw [if_pos hany]
  rw [List.reverse_append, List.reverse_append]
  rw [dropWhile_append_all _ ν.reverse _
    (fun c hc => by simp [hν c (List.mem_reverse.mp hc)])]
  obtain ⟨x, t, hxt⟩ := List.exists_cons_of_ne_nil
    (by simpa using hα : α.reverse ≠ [])
  have hx : x.isAlpha = true := hαA x (List.mem_reverse.mp (hxt ▸ List.mem_cons_self x t))
  rw [hxt, List.cons_append, List.dropWhile_cons, if_neg (by simp [hx])]
  rw [← List.cons_append, ← hxt]
  rw [List.reverse_append, List.reverse_reverse, List.reverse_reverse]

/-- Helper for C8, `/dev/nvme`/`/dev/mmcblk` branch: `find('p')` stops at
the first `p`, which (the literal prefixes containing no `p`) is the
partition separator. -/
theorem parent_p (pre β γ : List Char)
    (hpre : pre = "/dev/nvme".data ∨ pre = "/dev/mmcblk".data)
    (hβ : ∀ c ∈ β, c ≠ 'p') :
    getParentDevicePath (pre ++ β ++ 'p' :: γ) = pre ++ β := by
  unfold getParentDevicePath
  rw [if_neg (by
    unfold startsWithStr
    rcases hpre with rfl | rfl <;>
      · rw [List.append_assoc, List.take_append_of_le_length (by decide)]
        decide)]
  rw [if_pos (by
    unfold startsWithStr
    rcases hpre with rfl | rfl
    · apply Bool.or_eq_true_iff.mpr
      right
      rw [List.append_assoc, List.take_append_of_le_length (by decide)]
      decide
    · apply Bool.or_eq_true_iff.mpr
      left
      rw [List.append_assoc, List.take_append_of_le_length (by decide)]
      decide)]
  rw [List.append_assoc]
  rw [takeWhile_append_all _ pre _
    (fun c hc => by
      rcases hpre with rfl | rfl <;> revert c hc <;> decide)]
  rw [takeWhile_append_all _ β _ (fun c hc => by simp [hβ c hc])]
  rw [List.takeWhile_cons]
  simp

/-- Helper for C8: a `/dev/nvme*`/`/dev/mmcblk*` path without a `p` is
returned unchanged. -/
theorem parent_p_whole (pre β : List Char)
    (hpre : pre = "/dev/nvme".data ∨ pre = "/dev/mmcblk".data)
    (hβ : ∀ c ∈ β, c ≠ 'p') :
    getParentDevicePath (pre ++ β) = pre ++ β := by
  unfold getParentDevicePath
  rw [if_neg (by
    unfold startsWithStr
    rcases hpre with rfl | rfl <;>
      · rw [List.take_append_of_le_length (by decide)]
        decide)]
  rw [if_pos (by
    unfold startsWithStr
    rcases hpre with rfl | rfl
    · apply Bool.or_eq_true_iff.mpr
      right
      rw [List.take_append_of_le_length (by decide)]
      decide
    · apply Bool.or_eq_true_iff.mpr
      left
      rw [List.take_append_of_le_length (by decide)]
      decide)]
  rw [takeWhile_append_all _ pre _
    (fun c hc => by
      rcases hpre with rfl | rfl <;> revert c hc <;> decide)]
  rw [takeWhile_all _ β (fun c hc => by simp [hβ c hc])]

/-- C8: the parent-device computation collapses a partition path to its
whole-disk path — `/dev/sd*` paths keep everything through the trailing
letters (`sda1` to `sda`, `sdab2` to `sdab`), `/dev/nvme*` and
`/dev/mmcblk*` paths keep everything before the first `p` (`nvme0n1p1`
to `nvme0n1`, `mmcblk0p1` to `mmcblk0`) — and a path that is already a
whole-disk path maps to itself. -/
theorem parent_device_path_collapses
    (α ν β γ β2 γ2 : List Char)
    (hα : α ≠ []) (hαA : ∀ c ∈ α, c.isAlpha = true)
    (hν : ∀ c ∈ ν, c.isAlpha = false)
    (hβ : ∀ c ∈ β, c ≠ 'p') (hβ2 : ∀ c ∈ β2, c ≠ 'p') :
    getParentDevicePath ("/dev/sd".data ++ α ++ ν) = "/dev/sd".data ++ α ∧
      getParentDevicePath ("/dev/nvme".data ++ β ++ 'p' :: γ) =
        "/dev/nvme".data ++ β ∧
      getParentDevicePath ("/dev/mmcblk".data ++ β2 ++ 'p' :: γ2) =
        "/dev/mmcblk".data ++ β2 ∧
      getParentDevicePath ("/dev/sd".data ++ α) = "/dev/sd".data ++ α ∧
      getParentDevicePath ("/dev/nvme".data ++ β) = "/dev/nvme".data ++ β ∧
      getParentDevicePath ("/dev/mmcblk".data ++ β2) = "/dev/mmcblk".data ++ β2 := by
  refine ⟨parent_sd α ν hα hαA hν, parent_p _ β γ (Or.inl rfl) hβ,
    parent_p _ β2 γ2 (Or.inr rfl) hβ2, ?_, parent_p_whole _ β (Or.inl rfl) hβ,
    parent_p_whole _ β2 (Or.inr rfl) hβ2⟩
  have := parent_sd α [] hα hαA (by simp)
  simpa using this

/-- Witness for C8: `sda1`, `nvme0n1p1`, `mmcblk0p1` and the whole-disk
paths `sda`, `nvme0n1`, `mmcblk0`. -/
theorem parent_device_path_collapses_witness :
    (("a".data : List Char) ≠ [] ∧
        (∀ c ∈ ("a".data : List Char), c.isAlpha = true) ∧
        (∀ c ∈ ("1".data : List Char), c.isAlpha = false) ∧
        (∀ c ∈ ("0n1".data : List Char), c ≠ 'p') ∧
        (∀ c ∈ ("0".data : List Char), c ≠ 'p')) ∧
      (getParentDevicePath ("/dev/sd".data ++ "a".data ++ "1".data) =
          "/dev/sd".data ++ "a".data ∧
        getParentDevicePath ("/dev/nvme".data ++ "0n1".data ++ 'p' :: "1".data) =
          "/dev/nvme".data ++ "0n1".data ∧
        getParentDevicePath ("/dev/mmcblk".data ++ "0".data ++ 'p' :: "1".data) =
          "/dev/mmcblk".data ++ "0".data ∧
        getParentDevicePath ("/dev/sd".data ++ "a".data) = "/dev/sd".data ++ "a".data ∧
        getParentDevicePath ("/dev/nvme".data ++ "0n1".data) =
          "/dev/nvme".data ++ "0n1".data ∧
        getParentDevicePath ("/dev/mmcblk".data ++ "0".data) =
          "/dev/mmcblk".data ++ "0".data) :=
  ⟨⟨by decide, by decide, by decide, by decide, by decide⟩,
    parent_device_path_collapses "a".data "1".data "0n1".data "1".data "0".data
      "1".data (by decide) (by decide) (by decide) (by decide) (by decide)⟩


/-- Shared helper for C4 and C9: every device in the result of
`getRemovableDevices` comes from a `/sys/block` entry that survived all
four filters, and every field of the device is what linux.rs lines
107-112 compute from that entry. -/
theorem mem_removable_devices
    (disks : List MountEntry) (blocks : List BlockEntry)
    (parent : List Char) (devs : List Device) (d : Device)
    (hparent : systemDiskParent disks = some parent)
    (hok : getRemovableDevices disks blocks = .ok devs)
    (hmem : d ∈ devs) :
    ∃ b ∈ blocks,
      (startsWithStr "loop".data b.name || decide (devJoin b.name = parent)) = false ∧
      (b.removable.map (fun s => decide (trimStr s = "1".data))).getD false = true ∧
      (b.size.bind (fun s => parseU64 (trimStr s))).getD 0 ≠ 0 ∧
      d = { path := devJoin b.name
            name := b.name
            size_gb :=
              (((((b.size.bind (fun s => parseU64 (trimStr s))).getD 0) * 512) % 2 ^ 64 :
                  Nat) : ℚ) /
                (1024 * 1024 * 1024)
            mount_point := resolveMount disks b.name } := by
  unfold getRemovableDevices at hok
  rw [hparent] at hok
  injection hok with hdevs
  rw [← hdevs] at hmem
  obtain ⟨b, hb, hfb⟩ := List.mem_filterMap.mp hmem
  simp only at hfb
  refine ⟨b, hb, ?_⟩
  have h1 : (startsWithStr "loop".data b.name ||
      decide (devJoin b.name = parent)) = false := by
    by_contra hc
    rw [Bool.not_eq_false] at hc
    rw [if_pos hc] at hfb
    exact Option.noConfusion hfb
  rw [if_neg (by simp [h1])] at hfb
  have h2 : (b.removable.map (fun s => decide (trimStr s = "1".data))).getD false
      = true := by
    by_contra hc
    rw [if_pos hc] at hfb
    exact Option.noConfusion hfb
  rw [if_neg (fun hn => hn h2)] at hfb
  have h3 : (b.size.bind (fun s => parseU64 (trimStr s))).getD 0 ≠ 0 := by
    intro hc
    rw [if_pos hc] at hfb
    exact Option.noConfusion hfb
  rw [if_neg h3] at hfb
  injection hfb with hd
  exact ⟨h1, h2, h3, hd.symm⟩

/-- C4 (amended): every device returned by the enumerator has a path
different from the computed system-disk parent path, a name that is not a
loop device, and comes from a block entry whose `removable` attribute read
`1` and whose sector count is non-zero; its `size_gb` is strictly positive
whenever `sectors * 512` does not overflow `u64` — the multiplication at
linux.rs line 93 wraps, so at `2 ^ 55` sectors the returned device carries
`size_gb = 0`. -/
theorem enumerator_filters
    (disks : List MountEntry) (blocks : List BlockEntry)
    (parent : List Char) (devs : List Device) (d : Device)
    (hparent : systemDiskParent disks = some parent)
    (hok : getRemovableDevices disks blocks = .ok devs)
    (hmem : d ∈ devs) :
    d.path ≠ parent ∧
      startsWithStr "loop".data d.name = false ∧
      (∃ b ∈ blocks, b.name = d.name ∧
        (b.removable.map (fun s => decide (trimStr s = "1".data))).getD false = true ∧
        (b.size.bind (fun s => parseU64 (trimStr s))).getD 0 ≠ 0 ∧
        ((b.size.bind (fun s => parseU64 (trimStr s))).getD 0 * 512 < 2 ^ 64 →
          0 < d.size_gb)) := by
  obtain ⟨b, hb, h1, h2, h3, hd⟩ :=
    mem_removable_devices disks blocks parent devs d hparent hok hmem
  obtain ⟨h1a, h1b⟩ := Bool.or_eq_false_iff.mp h1
  subst hd
  refine ⟨?_, h1a, ⟨b, hb, rfl, h2, h3, ?_⟩⟩
  · show devJoin b.name ≠ parent
    simpa using h1b
  · intro hnof
    show (0 : ℚ) <
      (((((b.size.bind (fun s => parseU64 (trimStr s))).getD 0) * 512) % 2 ^ 64 :
          Nat) : ℚ) /
        (1024 * 1024 * 1024)
    rw [Nat.mod_eq_of_lt hnof]
    apply div_pos
    · have hpos : 0 < (b.size.bind (fun s => parseU64 (trimStr s))).getD 0 * 512 :=
        Nat.mul_pos (Nat.pos_of_ne_zero h3) (by norm_num)
      exact_mod_cast hpos
    · norm_num

/-- Concrete inputs for the C4 witness: root on `/dev/sda2`, one
removable 2048-sector block device `sdb`. -/
def c4Disks : List MountEntry := [{ name := "sda2".data, mountPoint := "/".data }]

/-- The single `/sys/block` entry of the C4 witness. -/
def c4Blocks : List BlockEntry :=
  [{ name := "sdb".data, removable := some "1".data, size := some "2048".data }]

/-- The device the enumerator returns on the C4 witness inputs. -/
def c4Dev : Device :=
  { path := "/dev/sdb".data
    name := "sdb".data
    size_gb := (((2048 * 512) % 2 ^ 64 : Nat) : ℚ) / (1024 * 1024 * 1024)
    mount_point := [] }

/-- Witness for C4. -/
theorem enumerator_filters_witness :
    (systemDiskParent c4Disks = some "/dev/sda".data ∧
        getRemovableDevices c4Disks c4Blocks = .ok [c4Dev] ∧
        c4Dev ∈ [c4Dev]) ∧
      (c4Dev.path ≠ "/dev/sda".data ∧
        startsWithStr "loop".data c4Dev.name = false ∧
        (∃ b ∈ c4Blocks, b.name = c4Dev.name ∧
          (b.removable.map (fun s => decide (trimStr s = "1".data))).getD false = true ∧
          (b.size.bind (fun s => parseU64 (trimStr s))).getD 0 ≠ 0 ∧
          ((b.size.bind (fun s => parseU64 (trimStr s))).getD 0 * 512 < 2 ^ 64 →
            0 < c4Dev.size_gb))) :=
  ⟨⟨by decide, rfl, List.Mem.head _⟩,
    enumerator_filters c4Disks c4Blocks "/dev/sda".data [c4Dev] c4Dev
      (by decide) rfl (List.Mem.head _)⟩

/-- Block list for the C4 counterexample: a removable device whose `size`
file reads `2 ^ 55` sectors, so `sectors * 512` is exactly `2 ^ 64` and
the `u64` multiplication wraps to `0`. -/
def c4OverflowBlocks : List BlockEntry :=
  [{ name := "sdb".data, removable := some "1".data
     size := some "36028797018963968".data }]

/-- The device the enumerator returns on the overflowing input: its
`size_gb` is `0`. -/
def c4OverflowDev : Device :=
  { path := "/dev/sdb".data
    name := "sdb".data
    size_gb := (((36028797018963968 * 512) % 2 ^ 64 : Nat) : ℚ) / (1024 * 1024 * 1024)
    mount_point := [] }

/-- C4 counterexample: at `2 ^ 55` sectors the enumerator returns a
device whose `size_gb` equals `0`, refuting the claim that every returned
device has `size_gb` strictly greater than zero. -/
theorem enumerator_size_overflow_counterexample :
    getRemovableDevices c4Disks c4OverflowBlocks = .ok [c4OverflowDev] ∧
      c4OverflowDev ∈ [c4OverflowDev] ∧
      c4OverflowDev.size_gb = 0 ∧
      ¬ (0 < c4OverflowDev.size_gb) := by
  have hz : c4OverflowDev.size_gb = 0 := by
    show (((36028797018963968 * 512) % 2 ^ 64 : Nat) : ℚ) / (1024 * 1024 * 1024) = 0
    have h : (36028797018963968 * 512) % 2 ^ 64 = 0 := by decide
    rw [h]
    simp
  refine ⟨rfl, List.Mem.head _, hz, ?_⟩
  rw [hz]
  exact lt_irrefl 0

/-- Shared helper for C9: when every mount-table entry has a non-empty
mount point (always the case for a live mount table), the code's
resolution — first prefix match with non-empty mount point — agrees with
the first-match-wins rule. -/
theorem resolveMount_eq_spec (disks : List MountEntry)
    (hne : ∀ e ∈ disks, e.mountPoint ≠ []) (nm : List Char) :
    resolveMount disks nm = resolveMountSpec disks nm := by
  induction disks with
  | nil => rfl
  | cons e rest ih =>
    unfold resolveMount resolveMountSpec
    rw [List.find?_cons, List.find?_cons]
    by_cases hpre : startsWithStr nm e.name = true
    · have hmp : decide (e.mountPoint ≠ []) = true := by
        simp [hne e (List.mem_cons_self e rest)]
      simp [hpre, hmp]
    · have hfalse : startsWithStr nm e.name = false := by
        simpa using hpre
      simp only [hfalse, Bool.false_and]
      exact ih (fun x hx => hne x (List.mem_cons_of_mem e hx))

/-- C9: for a mount table whose entries all carry a mount point, the
enumerator resolves a device's mount point by scanning for entries whose
device name has the device's name as a prefix, first match wins, empty
string when there is no match — and every returned device's
`mount_point` field is resolved this way from its name. -/
theorem mount_point_prefix_first_match
    (disks : List MountEntry) (nm : List Char)
    (blocks : List BlockEntry) (parent : List Char) (devs : List Device)
    (d : Device)
    (hnonempty : ∀ e ∈ disks, e.mountPoint ≠ [])
    (hparent : systemDiskParent disks = some parent)
    (hok : getRemovableDevices disks blocks = .ok devs)
    (hmem : d ∈ devs) :
    resolveMount disks nm = resolveMountSpec disks nm ∧
      d.mount_point = resolveMountSpec disks d.name := by
  refine ⟨resolveMount_eq_spec disks hnonempty nm, ?_⟩
  obtain ⟨b, hb, h1, h2, h3, hd⟩ :=
    mem_removable_devices disks blocks parent devs d hparent hok hmem
  subst hd
  show resolveMount disks b.name = resolveMountSpec disks b.name
  exact resolveMount_eq_spec disks hnonempty b.name

/-- Concrete inputs for the C9 witness: a two-entry mount table, device
name `sdb` matched by the second entry `sdb1` mounted at `/mnt/usb`. -/
def c9Disks : List MountEntry :=
  [{ name := "sda2".data, mountPoint := "/".data },
    { name := "sdb1".data, mountPoint := "/mnt/usb".data }]

/-- The single `/sys/block` entry of the C9 witness. -/
def c9Blocks : List BlockEntry :=
  [{ name := "sdb".data, removable := some "1".data, size := some "4096".data }]

/-- The device the enumerator returns on the C9 witness inputs. -/
def c9Dev : Device :=
  { path := "/dev/sdb".data
    name := "sdb".data
    size_gb := (((4096 * 512) % 2 ^ 64 : Nat) : ℚ) / (1024 * 1024 * 1024)
    mount_point := "/mnt/usb".data }

/-- Witness for C9. -/
theorem mount_point_prefix_first_match_witness :
    ((∀ e ∈ c9Disks, MountEntry.mountPoint e ≠ []) ∧
        systemDiskParent c9Disks = some "/dev/sda".data ∧
        getRemovableDevices c9Disks c9Blocks = .ok [c9Dev] ∧
        c9Dev ∈ [c9Dev]) ∧
      (resolveMount c9Disks "sdb".data = resolveMountSpec c9Disks "sdb".data ∧
        c9Dev.mount_point = resolveMountSpec c9Disks c9Dev.name) :=
  ⟨⟨by decide, by decide, rfl, List.Mem.head _⟩,
    mount_point_prefix_first_match c9Disks "sdb".data c9Blocks
      "/dev/sda".data [c9Dev] c9Dev (by decide) (by decide) rfl (List.Mem.head _)⟩

/-- C6 counterexample: on the platform with no enumerator implementation
(windows.rs) the discover call panics via `unimplemented!`; it does not
return the `Unsupported` error value. -/
theorem windows_discover_counterexample :
    windowsGetRemovableDevices =
        .panicked "not implemented: Windows support is not yet implemented.".data ∧
      windowsGetRemovableDevices ≠ .returned (.error .unsupported) :=
  ⟨rfl, fun h => CallOutcome.noConfusion h⟩

/-- C6 (amended): on a platform with no enumerator implementation the
discover operation terminates abnormally — it panics with the
`unimplemented!` message — rather than returning `Unsupported` or an
empty device list; callers get no list and no error value at all. -/
theorem windows_discover_panics :
    windowsGetRemovableDevices =
        .panicked "not implemented: Windows support is not yet implemented.".data ∧
      (∀ devs : List Device, windowsGetRemovableDevices ≠ .returned (.ok devs)) ∧
      (∀ e : DiscoveryError, windowsGetRemovableDevices ≠ .returned (.error e)) :=
  ⟨rfl, fun _ h => CallOutcome.noConfusion h, fun _ h => CallOutcome.noConfusion h⟩

end Etchr
